import Mathlib

/-!
# Verification of the Lacuna sentence-review widget (`flask_app/static/app.js`)

Shallow embedding of the client-side review state: the sentence currently
under review is a list of word tokens (one `<span>` per word plus a literal
`" "` text node after each), a LIFO undo stack of redaction events, the id
of the active sentence, and the read-only original-sentence display.

Strings are modelled as `List Char`.  JavaScript's `undefined`/`null` for
absent record fields is modelled by `Option`.  The JS `||` operator's
falsiness of the empty string is modelled explicitly (`jsOr`).  The undo
stack is a Lean list with its head as the top (JS pushes/pops at the end of
the array; the orientation is irrelevant to LIFO behaviour).
-/

namespace Lacuna

/-- Characters removed by JavaScript `String.prototype.trim` (the ASCII
whitespace subset; the sentences manipulated here are ordinary text, and
only the ASCII space is ever produced by the widget itself). -/
def isJsWs (c : Char) : Bool :=
  c = ' ' || c = '\t' || c = '\n' || c = '\r' || c = '\x0b' || c = '\x0c'

/-- `s.trim()` : drop whitespace from both ends. -/
def jsTrim (s : List Char) : List Char :=
  ((s.reverse.dropWhile isJsWs).reverse).dropWhile isJsWs

/-- `text.split(" ")` : split on every single ASCII space; empty segments
are kept, and the empty string yields `[""]`. -/
def splitOnSpace : List Char → List (List Char)
  | [] => [[]]
  | c :: cs =>
    if c = ' ' then [] :: splitOnSpace cs
    else
      match splitOnSpace cs with
      | [] => [[c]]
      | w :: ws => (c :: w) :: ws

/-- JS `a || b` where `a` is a possibly-absent string: absent (`null` /
`undefined`) and the empty string are falsy. -/
def jsOr : Option (List Char) → List Char → List Char
  | none, b => b
  | some a, b => if a.isEmpty then b else a

/-- One rendered word `<span>`.  `onclick = some w` models the installed
handler `() => redactWord(span, w)`; `onclick = none` models
`span.onclick = null` (the span is not clickable). -/
structure Token where
  text : List Char
  onclick : Option (List Char)
  deriving Repr, DecidableEq

/-- The literal marker `"[REDACT]"`. -/
def redactMarker : List Char := "[REDACT]".data

/-- Entry of `undoStack`: the JS object `{ span, original }`.  The span
reference is modelled by the span's index in the rendered sequence (spans
are only ever created by `renderEditableSentence`, which also clears the
stack, so stack entries always refer to the current rendering). -/
structure RedactionEvent where
  position : Nat
  original : List Char
  deriving Repr, DecidableEq

/-- A record served by `/next-sentence/1`.  `id` and `note_id` are opaque
identifiers (modelled as strings); `llm_sentence` and `final_sentence`
may be absent. -/
structure SentenceRecord where
  id : List Char
  note_id : List Char
  index : Int
  original_sentence : List Char
  llm_sentence : Option (List Char)
  final_sentence : Option (List Char)
  deriving Repr, DecidableEq

/-- The process-wide mutable state of `app.js`: `currentSentenceId`,
`undoStack`, the children of `#editable-sentence` (tokens), the text of
`#original-sentence`, the edit box, and the feedback surface. -/
structure Session where
  currentSentenceId : Option (List Char)
  originalDisplay : List Char
  tokens : List Token
  undoStack : List RedactionEvent
  editBoxOpen : Bool
  editBoxText : List Char
  feedback : Option (List Char)
  deriving Repr, DecidableEq

/-- State at script load: no sentence, empty container, empty stack. -/
def initSession : Session :=
  { currentSentenceId := none
    originalDisplay := []
    tokens := []
    undoStack := []
    editBoxOpen := false
    editBoxText := []
    feedback := none }

/-- `renderEditableSentence(text)`: clear the container and the undo
stack, split `text` on spaces, and emit one clickable span per word (each
followed by a `" "` text node, reproduced in `currentText` below). -/
def renderEditableSentence (s : Session) (text : List Char) : Session :=
  { s with
    undoStack := []
    tokens := (splitOnSpace text).map fun w => { text := w, onclick := some w } }

/-- `redactWord(span, originalWord)`: push `{span, original}` on
`undoStack`, overwrite the span's text with `[REDACT]`, remove its
handler. -/
def redactWord (s : Session) (p : Nat) (originalWord : List Char) : Session :=
  { s with
    undoStack := ⟨p, originalWord⟩ :: s.undoStack
    tokens := s.tokens.set p { text := redactMarker, onclick := none } }

/-- A click on the span at index `p`: runs the installed handler
`() => redactWord(span, w)` if one is present, otherwise does nothing
(`span.onclick === null`). -/
def clickToken (s : Session) (p : Nat) : Session :=
  match s.tokens[p]? with
  | some t =>
    match t.onclick with
    | some w => redactWord s p w
    | none => s
  | none => s

/-- `undoRedact()`: no-op on an empty stack; otherwise pop the most
recent `{span, original}`, restore the span's text and re-install its
handler `() => redactWord(span, original)`. -/
def undoRedact (s : Session) : Session :=
  match s.undoStack with
  | [] => s
  | e :: rest =>
    { s with
      undoStack := rest
      tokens := s.tokens.set e.position { text := e.original, onclick := some e.original } }

/-- `Array.from(sentenceContainer.childNodes).map(n => n.textContent).join("").trim()` :
the children alternate span / `" "` text node, so the join is the
concatenation of every token's text followed by one space. -/
def currentText (s : Session) : List Char :=
  jsTrim ((s.tokens.map fun t => t.text ++ [' ']).flatten)

/-- `editSentence()`: open the edit box and fill it with the
reconstructed current text. -/
def editSentence (s : Session) : Session :=
  { s with editBoxOpen := true, editBoxText := currentText s }

/-- `saveEdit()`: read the edit box's value (`newText` is its content at
click time, which the user may have changed), trim it, re-render, hide
the box. -/
def saveEdit (s : Session) (newText : List Char) : Session :=
  { renderEditableSentence s (jsTrim newText) with editBoxOpen := false }

/-- `data.final_sentence || data.llm_sentence || data.original_sentence` :
first truthy (present and non-empty) value wins. -/
def chooseEditable (r : SentenceRecord) : List Char :=
  jsOr r.final_sentence (jsOr r.llm_sentence r.original_sentence)

/-- Successful branch of `loadNextSentence()`: store the id, display the
original sentence verbatim, render the chosen editable text. -/
def loadNextSentenceOk (s : Session) (r : SentenceRecord) : Session :=
  renderEditableSentence
    { s with currentSentenceId := some r.id, originalDisplay := r.original_sentence }
    (chooseEditable r)

/-- Failed branch of `loadNextSentence()` (`.catch`): only an alert, the
session is untouched. -/
def loadNextSentenceFail (s : Session) : Session := s

/-- Feedback message of `useOriginal()`. -/
def replacedMsg : List Char := "📝 Replaced with original sentence.".data

/-- Feedback message of `markGood`'s success path. -/
def goodMsg : List Char := "✅ Sentence marked as good!".data

/-- Feedback message of `markGood`'s failure path. -/
def failMsg : List Char := "❌ Failed to update sentence.".data

/-- `useOriginal()`: read `#original-sentence`'s text, trim, re-render,
show feedback. -/
def useOriginal (s : Session) : Session :=
  { renderEditableSentence s (jsTrim s.originalDisplay) with feedback := some replacedMsg }

/-- The PATCH body `{ final_sentence }` sent to `/sentence/:id`. -/
structure SubmitRequest where
  id : List Char
  final_sentence : List Char
  deriving Repr, DecidableEq

/-- Synchronous part of `markGood()`: reconstruct the final text; if
`!currentSentenceId` (absent, or an empty — falsy — id) alert and send
nothing, otherwise issue the PATCH.  No session field is written. -/
def markGood (s : Session) : Session × Option SubmitRequest :=
  match s.currentSentenceId with
  | none => (s, none)
  | some i => if i.isEmpty then (s, none) else (s, some ⟨i, currentText s⟩)

/-- Asynchronous continuation of `markGood()`: on success show the
success feedback (and re-enable the button, a DOM detail outside this
model); on a non-ok response or transport error (`.catch`) show the
failure feedback.  Tokens, stack and id are never written. -/
def markGoodResponse (s : Session) (ok : Bool) : Session :=
  if ok then { s with feedback := some goodMsg }
  else { s with feedback := some failMsg }

/-- States reachable by the widget: the initial script state followed by
any sequence of UI events (load resolution, span clicks, undo, edit
open/save, revert, submit resolution). -/
inductive Reachable : Session → Prop
  | init : Reachable initSession
  | load (s : Session) (r : SentenceRecord) :
      Reachable s → Reachable (loadNextSentenceOk s r)
  | click (s : Session) (p : Nat) : Reachable s → Reachable (clickToken s p)
  | undo (s : Session) : Reachable s → Reachable (undoRedact s)
  | edit (s : Session) : Reachable s → Reachable (editSentence s)
  | save (s : Session) (t : List Char) : Reachable s → Reachable (saveEdit s t)
  | revert (s : Session) : Reachable s → Reachable (useOriginal s)
  | submitResp (s : Session) (ok : Bool) :
      Reachable s → Reachable (markGoodResponse s ok)

/-- A redacted span: marker text, no handler. -/
def redactedTok : Token := { text := redactMarker, onclick := none }

/-- A freshly rendered (unredacted) span for the word `w`. -/
def wordTok (w : List Char) : Token := { text := w, onclick := some w }

/-- Three-word demo session used to instantiate the theorems below. -/
def demoSession : Session :=
  { initSession with
    currentSentenceId := some "s1".data
    originalDisplay := "x y z".data
    tokens := [wordTok "x".data, wordTok "y".data, wordTok "z".data] }

/-- A record whose only usable text is the original sentence. -/
def demoRecord : SentenceRecord :=
  { id := "s1".data
    note_id := "n1".data
    index := 0
    original_sentence := "x y z".data
    llm_sentence := none
    final_sentence := none }

/-- A record carrying a present-but-empty `final_sentence` next to a
non-empty `llm_sentence`. -/
def emptyFinalRecord : SentenceRecord :=
  { id := "s2".data
    note_id := "n2".data
    index := 1
    original_sentence := "y".data
    llm_sentence := some "x".data
    final_sentence := some [] }

/-- The initial-text choice exactly as the spec's precedence sentence
reads it: `final_sentence` if present, else `llm_sentence` if present,
else `original_sentence` (presence = the field exists, whatever its
value). -/
def claimedInitialText (r : SentenceRecord) : List Char :=
  match r.final_sentence with
  | some f => f
  | none =>
    match r.llm_sentence with
    | some l => l
    | none => r.original_sentence

/-- Fallback of `amendedInitialText` past `final_sentence`. -/
def amendedLlmText (r : SentenceRecord) : List Char :=
  match r.llm_sentence with
  | some l => if l = [] then r.original_sentence else l
  | none => r.original_sentence

/-- The amended choice: the first field that is present AND non-empty
wins (the JS `||` chain treats a present empty string as absent). -/
def amendedInitialText (r : SentenceRecord) : List Char :=
  match r.final_sentence with
  | some f => if f = [] then amendedLlmText r else f
  | none => amendedLlmText r

/-- The two user operations of the redaction phase. -/
inductive UserOp
  | click (p : Nat)
  | undo
  deriving Repr, DecidableEq

/-- Run one user operation. -/
def applyOp (s : Session) : UserOp → Session
  | .click p => clickToken s p
  | .undo => undoRedact s

/-- Run a sequence of user operations, oldest first. -/
def applyOps (s : Session) (ops : List UserOp) : Session :=
  ops.foldl applyOp s

/-- C1's invariant: the undo stack names pairwise-distinct positions
(a subsequence of the rendering, most-recent first), each currently
holding a redacted token. -/
def StackInv (s : Session) : Prop :=
  s.undoStack.Pairwise (fun e e' => e.position ≠ e'.position) ∧
  ∀ e ∈ s.undoStack, s.tokens[e.position]? = some redactedTok

/-- C4: Redact-then-undo is an identity on a token's displayed text: for
every position `p` holding an unredacted token, `redact(p)` followed by
`undo()` restores exactly the text (and handler) the token had before. -/
theorem redact_then_undo_identity (s : Session) (p : Nat) (w : List Char)
    (h : s.tokens[p]? = some (wordTok w)) :
    (undoRedact (clickToken s p)).tokens[p]? = some (wordTok w) := by
  have hlt : p < s.tokens.length := (List.getElem?_eq_some_iff.mp h).1
  simp [clickToken, h, wordTok, redactWord, undoRedact, List.set_set,
    List.getElem?_set_self, hlt]

theorem redact_then_undo_identity_witness :
    (undoRedact (clickToken demoSession 1)).tokens[1]? = some (wordTok "y".data) :=
  redact_then_undo_identity demoSession 1 "y".data rfl

/-- C3: Undo is strictly LIFO: for distinct positions `a`, `b`, `c`
holding unredacted tokens, redacting `a` then `b` then `c` and undoing
three times restores `c`'s text first (while `a`, `b` stay redacted),
then `b`'s (while `a` stays redacted), then `a`'s — whatever the numeric
order of `a`, `b`, `c`. -/
theorem undo_is_lifo (s : Session) (a b c : Nat) (ta tb tc : List Char)
    (hab : a ≠ b) (hac : a ≠ c) (hbc : b ≠ c)
    (ha : s.tokens[a]? = some (wordTok ta))
    (hb : s.tokens[b]? = some (wordTok tb))
    (hc : s.tokens[c]? = some (wordTok tc)) :
    (undoRedact (clickToken (clickToken (clickToken s a) b) c)).tokens[c]?
        = some (wordTok tc) ∧
    (undoRedact (clickToken (clickToken (clickToken s a) b) c)).tokens[a]?
        = some redactedTok ∧
    (undoRedact (clickToken (clickToken (clickToken s a) b) c)).tokens[b]?
        = some redactedTok ∧
    (undoRedact (undoRedact (clickToken (clickToken (clickToken s a) b) c))).tokens[b]?
        = some (wordTok tb) ∧
    (undoRedact (undoRedact (clickToken (clickToken (clickToken s a) b) c))).tokens[a]?
        = some redactedTok ∧
    (undoRedact (undoRedact (undoRedact (clickToken (clickToken (clickToken s a) b) c)))).tokens[a]?
        = some (wordTok ta) ∧
    (undoRedact (undoRedact (undoRedact (clickToken (clickToken (clickToken s a) b) c)))).tokens[b]?
        = some (wordTok tb) ∧
    (undoRedact (undoRedact (undoRedact (clickToken (clickToken (clickToken s a) b) c)))).tokens[c]?
        = some (wordTok tc) := by
  obtain ⟨hla, ha'⟩ := List.getElem?_eq_some_iff.mp ha
  obtain ⟨hlb, hb'⟩ := List.getElem?_eq_some_iff.mp hb
  obtain ⟨hlc, hc'⟩ := List.getElem?_eq_some_iff.mp hc
  simp [clickToken, ha, hb, hc, ha', hb', hc', wordTok, redactWord, undoRedact,
    List.set_set, List.getElem?_set_self, List.getElem?_set_ne, hab, hac, hbc,
    hab.symm, hac.symm, hbc.symm, hla, hlb, hlc, redactedTok]

theorem undo_is_lifo_witness :
    (undoRedact (clickToken (clickToken (clickToken demoSession 2) 0) 1)).tokens[1]?
        = some (wordTok "y".data) ∧
    (undoRedact (clickToken (clickToken (clickToken demoSession 2) 0) 1)).tokens[2]?
        = some redactedTok ∧
    (undoRedact (clickToken (clickToken (clickToken demoSession 2) 0) 1)).tokens[0]?
        = some redactedTok ∧
    (undoRedact (undoRedact (clickToken (clickToken (clickToken demoSession 2) 0) 1))).tokens[0]?
        = some (wordTok "x".data) ∧
    (undoRedact (undoRedact (clickToken (clickToken (clickToken demoSession 2) 0) 1))).tokens[2]?
        = some redactedTok ∧
    (undoRedact (undoRedact (undoRedact (clickToken (clickToken (clickToken demoSession 2) 0) 1)))).tokens[2]?
        = some (wordTok "z".data) ∧
    (undoRedact (undoRedact (undoRedact (clickToken (clickToken (clickToken demoSession 2) 0) 1)))).tokens[0]?
        = some (wordTok "x".data) ∧
    (undoRedact (undoRedact (undoRedact (clickToken (clickToken (clickToken demoSession 2) 0) 1)))).tokens[1]?
        = some (wordTok "y".data) :=
  undo_is_lifo demoSession 2 0 1 "z".data "x".data "y".data
    (by decide) (by decide) (by decide) rfl rfl rfl

theorem splitOnSpace_ne_nil (l : List Char) : splitOnSpace l ≠ [] := by
  cases l with
  | nil => simp [splitOnSpace]
  | cons c cs =>
    by_cases hc : c = ' '
    · simp [splitOnSpace, hc]
    · simp only [splitOnSpace, if_neg hc]
      cases splitOnSpace cs <;> simp

theorem splitOnSpace_space_cons (cs : List Char) :
    splitOnSpace (' ' :: cs) = [] :: splitOnSpace cs := by
  simp [splitOnSpace]

theorem splitOnSpace_cons_of_ne (c : Char) (cs : List Char) (hc : c ≠ ' ') :
    splitOnSpace (c :: cs)
      = (c :: (splitOnSpace cs).headI) :: (splitOnSpace cs).tail := by
  simp only [splitOnSpace, if_neg hc]
  cases h : splitOnSpace cs with
  | nil => exact absurd h (splitOnSpace_ne_nil cs)
  | cons w ws => simp [List.headI]

theorem flatten_map_splitOnSpace (l : List Char) :
    ((splitOnSpace l).map (fun w => w ++ [' '])).flatten = l ++ [' '] := by
  induction l with
  | nil => simp [splitOnSpace]
  | cons c cs ih =>
    by_cases hc : c = ' '
    · subst hc
      simp [splitOnSpace_space_cons, ih]
    · simp only [splitOnSpace, if_neg hc]
      cases h : splitOnSpace cs with
      | nil => exact absurd h (splitOnSpace_ne_nil cs)
      | cons w ws =>
        rw [h] at ih
        simpa using ih

theorem length_splitOnSpace (l : List Char) :
    (splitOnSpace l).length = l.count ' ' + 1 := by
  induction l with
  | nil => simp [splitOnSpace]
  | cons c cs ih =>
    by_cases hc : c = ' '
    · subst hc
      simp [splitOnSpace_space_cons, ih, List.count_cons]
    · simp only [splitOnSpace, if_neg hc]
      cases h : splitOnSpace cs with
      | nil => exact absurd h (splitOnSpace_ne_nil cs)
      | cons w ws =>
        rw [h] at ih
        simp only [List.length_cons] at ih ⊢
        rw [List.count_cons]
        simp [hc, ih]

theorem splitOnSpace_of_no_space (w : List Char) (h : ' ' ∉ w) :
    splitOnSpace w = [w] := by
  induction w with
  | nil => rfl
  | cons c cs ih =>
    have hc : c ≠ ' ' := fun he => h (he ▸ List.mem_cons_self c cs)
    have hcs : ' ' ∉ cs := fun hm => h (List.mem_cons_of_mem c hm)
    simp only [splitOnSpace, if_neg hc, ih hcs]

theorem splitOnSpace_word_space (w rest : List Char) (h : ' ' ∉ w) :
    splitOnSpace (w ++ ' ' :: rest) = w :: splitOnSpace rest := by
  induction w with
  | nil => simp [splitOnSpace_space_cons]
  | cons c cs ih =>
    have hc : c ≠ ' ' := fun he => h (he ▸ List.mem_cons_self c cs)
    have hcs : ' ' ∉ cs := fun hm => h (List.mem_cons_of_mem c hm)
    rw [List.cons_append, splitOnSpace_cons_of_ne c _ hc, ih hcs]
    simp [List.headI]

theorem splitOnSpace_replicate_space (n : Nat) (w : List Char) (h : ' ' ∉ w) :
    splitOnSpace (List.replicate n ' ' ++ w)
      = List.replicate n ([] : List Char) ++ [w] := by
  induction n with
  | zero => simpa using splitOnSpace_of_no_space w h
  | succ m ih =>
    simp only [List.replicate_succ, List.cons_append, splitOnSpace_space_cons, ih]

theorem jsTrim_eq (l : List Char) :
    jsTrim l = (List.rdropWhile isJsWs l).dropWhile isJsWs := rfl

theorem jsTrim_append_space (l : List Char) :
    jsTrim (l ++ [' ']) = jsTrim l := by
  rw [jsTrim_eq, jsTrim_eq, List.rdropWhile_concat_pos]
  decide

theorem jsTrim_idem (l : List Char) : jsTrim (jsTrim l) = jsTrim l := by
  rw [jsTrim_eq, jsTrim_eq]
  have h1 : List.rdropWhile isJsWs ((List.rdropWhile isJsWs l).dropWhile isJsWs)
      = (List.rdropWhile isJsWs l).dropWhile isJsWs := by
    rw [List.rdropWhile_eq_self_iff]
    intro hl
    have ht : List.rdropWhile isJsWs l ≠ [] := by
      intro he
      rw [he] at hl
      simp at hl
    have hsplit : (List.rdropWhile isJsWs l).takeWhile isJsWs
        ++ (List.rdropWhile isJsWs l).dropWhile isJsWs = List.rdropWhile isJsWs l :=
      List.takeWhile_append_dropWhile isJsWs (List.rdropWhile isJsWs l)
    have e1 : ((List.rdropWhile isJsWs l).dropWhile isJsWs).getLast?
        = some (((List.rdropWhile isJsWs l).dropWhile isJsWs).getLast hl) :=
      (List.getLast_eq_iff_getLast?_eq_some hl).mp rfl
    have e2 : (List.rdropWhile isJsWs l).getLast?
        = some ((List.rdropWhile isJsWs l).getLast ht) :=
      (List.getLast_eq_iff_getLast?_eq_some ht).mp rfl
    have hq : ((List.rdropWhile isJsWs l).dropWhile isJsWs).getLast?
        = (List.rdropWhile isJsWs l).getLast? := by
      conv_rhs => rw [← hsplit]
      rw [List.getLast?_append, e1]
      rfl
    rw [hq, e2] at e1
    have hE : ((List.rdropWhile isJsWs l).dropWhile isJsWs).getLast hl
        = (List.rdropWhile isJsWs l).getLast ht := (Option.some.inj e1).symm
    rw [hE]
    exact List.rdropWhile_last_not isJsWs l ht
  rw [h1, List.dropWhile_idempotent]

/-- C5: `commitEdit(text)` followed immediately by reconstructing the
text from the rendered tokens and their render-time separators, trimmed,
yields exactly `text.trim()`. -/
theorem commit_roundtrip (s : Session) (text : List Char) :
    currentText (saveEdit s text) = jsTrim text := by
  have h : (saveEdit s text).tokens
      = (splitOnSpace (jsTrim text)).map fun w => { text := w, onclick := some w } := rfl
  simp only [currentText, h, List.map_map]
  have h2 : ((fun t : Token => t.text ++ [' ']) ∘ fun w : List Char =>
      ({ text := w, onclick := some w } : Token)) = fun w => w ++ [' '] := rfl
  rw [h2, flatten_map_splitOnSpace, jsTrim_append_space, jsTrim_idem]

/-- C6: rendering splits on single ASCII spaces without filtering empty
segments: the token texts are the unfiltered split, the token count is
the number of spaces plus one, and a run of `n ≥ 1` spaces between two
space-free words yields `n - 1` empty tokens between them. -/
theorem render_tokenization (s : Session) (text w1 w2 : List Char) (n : Nat)
    (h1 : ' ' ∉ w1) (h2 : ' ' ∉ w2) (hn : 0 < n) :
    (renderEditableSentence s text).tokens.map Token.text = splitOnSpace text ∧
    (renderEditableSentence s text).tokens.length = text.count ' ' + 1 ∧
    (renderEditableSentence s (w1 ++ List.replicate n ' ' ++ w2)).tokens.map Token.text
      = w1 :: (List.replicate (n - 1) ([] : List Char) ++ [w2]) := by
  refine ⟨?_, ?_, ?_⟩
  · have hb : (Token.text ∘ fun w : List Char =>
        ({ text := w, onclick := some w } : Token)) = id := rfl
    simp [renderEditableSentence, List.map_map, hb]
  · simp [renderEditableSentence, length_splitOnSpace]
  · obtain ⟨m, rfl⟩ : ∃ m, n = m + 1 := ⟨n - 1, (Nat.succ_pred_eq_of_pos hn).symm⟩
    have htext : w1 ++ List.replicate (m + 1) ' ' ++ w2
        = w1 ++ ' ' :: (List.replicate m ' ' ++ w2) := by
      rw [List.append_assoc, List.replicate_succ, List.cons_append]
    simp only [renderEditableSentence, htext, List.map_map,
      splitOnSpace_word_space w1 _ h1, splitOnSpace_replicate_space m w2 h2,
      Nat.add_sub_cancel]
    simp [Function.comp]

theorem render_tokenization_witness :
    (renderEditableSentence demoSession "a b".data).tokens.map Token.text
      = splitOnSpace "a b".data ∧
    (renderEditableSentence demoSession "a b".data).tokens.length
      = ("a b".data).count ' ' + 1 ∧
    (renderEditableSentence demoSession
        ("q".data ++ List.replicate 3 ' ' ++ "r".data)).tokens.map Token.text
      = "q".data :: (List.replicate (3 - 1) ([] : List Char) ++ ["r".data]) :=
  render_tokenization demoSession "a b".data "q".data "r".data 3
    (by decide) (by decide) (by decide)

/-- C7: `commitEdit` always clears the undo history: after any sequence
of redact/undo operations followed by a commit the undo history is empty
and a subsequent `undo()` is a no-op leaving the state unchanged. -/
theorem commit_clears_undo_history (s : Session) (ops : List UserOp) (newText : List Char) :
    (saveEdit (applyOps s ops) newText).undoStack = [] ∧
    undoRedact (saveEdit (applyOps s ops) newText) = saveEdit (applyOps s ops) newText := by
  exact ⟨rfl, rfl⟩

/-- C2 (counterexample): a record whose `final_sentence` is present but
empty and whose `llm_sentence` is `"x"` is loaded with editable text
`"x"` — not the present `final_sentence` the claim requires. -/
theorem load_precedence_counterexample :
    emptyFinalRecord.final_sentence = some [] ∧
    claimedInitialText emptyFinalRecord = [] ∧
    chooseEditable emptyFinalRecord = "x".data ∧
    (loadNextSentenceOk initSession emptyFinalRecord).tokens.map Token.text = ["x".data] ∧
    (loadNextSentenceOk initSession emptyFinalRecord).tokens.map Token.text
      ≠ splitOnSpace (claimedInitialText emptyFinalRecord) := by
  refine ⟨rfl, rfl, rfl, rfl, ?_⟩
  decide

/-- C2 (amended): `load` stores the id and the verbatim original display
and chooses the initial editable text by precedence over the fields that
are present AND non-empty: `final_sentence`, else `llm_sentence`, else
`original_sentence`. -/
theorem load_precedence_amended (s : Session) (r : SentenceRecord) :
    (loadNextSentenceOk s r).currentSentenceId = some r.id ∧
    (loadNextSentenceOk s r).originalDisplay = r.original_sentence ∧
    (loadNextSentenceOk s r).tokens
      = (splitOnSpace (amendedInitialText r)).map
          (fun w => { text := w, onclick := some w }) := by
  refine ⟨rfl, rfl, ?_⟩
  have hch : chooseEditable r = amendedInitialText r := by
    cases hf : r.final_sentence <;> cases hl : r.llm_sentence <;>
      simp [chooseEditable, amendedInitialText, amendedLlmText, jsOr, hf, hl,
        List.isEmpty_iff]
  show (splitOnSpace (chooseEditable r)).map _ = _
  rw [hch]

/-- C9: `revertToOriginal()` is equivalent in effect to
`commitEdit(original_sentence)` once the original display holds the
record's original sentence (which `load` sets verbatim): same token
sequence, both with an empty undo history. -/
theorem revert_equiv_commit_original (s0 s : Session) (r : SentenceRecord)
    (h : s.originalDisplay = r.original_sentence) :
    (loadNextSentenceOk s0 r).originalDisplay = r.original_sentence ∧
    (useOriginal s).tokens = (saveEdit s r.original_sentence).tokens ∧
    (useOriginal s).undoStack = [] ∧
    (saveEdit s r.original_sentence).undoStack = [] := by
  refine ⟨rfl, ?_, rfl, rfl⟩
  simp [useOriginal, saveEdit, renderEditableSentence, h]

theorem revert_equiv_commit_original_witness :
    (loadNextSentenceOk initSession demoRecord).originalDisplay
      = demoRecord.original_sentence ∧
    (useOriginal demoSession).tokens
      = (saveEdit demoSession demoRecord.original_sentence).tokens ∧
    (useOriginal demoSession).undoStack = [] ∧
    (saveEdit demoSession demoRecord.original_sentence).undoStack = [] :=
  revert_equiv_commit_original initSession demoSession demoRecord rfl

/-- C8: when a submission fails, only the feedback surface changes: the
synchronous part of `markGood` writes nothing and sends the
reconstructed text for the active id; the failure continuation leaves
tokens, undo history and id intact, so an immediate retry sends exactly
the same request. -/
theorem submit_failure_preserves_state (s : Session) (i : List Char)
    (hid : s.currentSentenceId = some i) (hne : i ≠ []) :
    (markGood s).1 = s ∧
    (markGood s).2 = some { id := i, final_sentence := currentText s } ∧
    (markGoodResponse (markGood s).1 false).feedback = some failMsg ∧
    (markGoodResponse (markGood s).1 false).tokens = s.tokens ∧
    (markGoodResponse (markGood s).1 false).undoStack = s.undoStack ∧
    (markGoodResponse (markGood s).1 false).currentSentenceId = s.currentSentenceId ∧
    (markGood (markGoodResponse (markGood s).1 false)).2
      = some { id := i, final_sentence := currentText s } := by
  have hne' : i.isEmpty = false := by simpa using hne
  simp [markGood, markGoodResponse, hid, hne', currentText]

theorem submit_failure_preserves_state_witness :
    (markGood demoSession).1 = demoSession ∧
    (markGood demoSession).2
      = some { id := "s1".data, final_sentence := currentText demoSession } ∧
    (markGoodResponse (markGood demoSession).1 false).feedback = some failMsg ∧
    (markGoodResponse (markGood demoSession).1 false).tokens = demoSession.tokens ∧
    (markGoodResponse (markGood demoSession).1 false).undoStack
      = demoSession.undoStack ∧
    (markGoodResponse (markGood demoSession).1 false).currentSentenceId
      = demoSession.currentSentenceId ∧
    (markGood (markGoodResponse (markGood demoSession).1 false)).2
      = some { id := "s1".data, final_sentence := currentText demoSession } :=
  submit_failure_preserves_state demoSession "s1".data rfl (by decide)

/-- C10: clicks and undos are frame-preserving: the active sentence id,
the read-only original display, and the number of tokens never change,
and every position other than the affected one keeps its token (text and
activation both). -/
theorem redact_undo_frame (s : Session) (p : Nat) :
    (clickToken s p).currentSentenceId = s.currentSentenceId ∧
    (clickToken s p).originalDisplay = s.originalDisplay ∧
    (clickToken s p).tokens.length = s.tokens.length ∧
    (∀ q, q ≠ p → (clickToken s p).tokens[q]? = s.tokens[q]?) ∧
    (undoRedact s).currentSentenceId = s.currentSentenceId ∧
    (undoRedact s).originalDisplay = s.originalDisplay ∧
    (undoRedact s).tokens.length = s.tokens.length ∧
    (∀ q, (∀ e, s.undoStack.head? = some e → e.position ≠ q) →
      (undoRedact s).tokens[q]? = s.tokens[q]?) := by
  refine ⟨?_, ?_, ?_, ?_, ?_, ?_, ?_, ?_⟩
  · cases hpt : s.tokens[p]? with
    | none => simp [clickToken, hpt]
    | some t =>
      cases ho : t.onclick with
      | none => simp [clickToken, hpt, ho]
      | some w => simp [clickToken, hpt, ho, redactWord]
  · cases hpt : s.tokens[p]? with
    | none => simp [clickToken, hpt]
    | some t =>
      cases ho : t.onclick with
      | none => simp [clickToken, hpt, ho]
      | some w => simp [clickToken, hpt, ho, redactWord]
  · cases hpt : s.tokens[p]? with
    | none => simp [clickToken, hpt]
    | some t =>
      cases ho : t.onclick with
      | none => simp [clickToken, hpt, ho]
      | some w => simp [clickToken, hpt, ho, redactWord]
  · intro q hq
    cases hpt : s.tokens[p]? with
    | none => simp [clickToken, hpt]
    | some t =>
      cases ho : t.onclick with
      | none => simp [clickToken, hpt, ho]
      | some w =>
        simp [clickToken, hpt, ho, redactWord, List.getElem?_set_ne (Ne.symm hq)]
  · cases hst : s.undoStack with
    | nil => simp [undoRedact, hst]
    | cons e rest => simp [undoRedact, hst]
  · cases hst : s.undoStack with
    | nil => simp [undoRedact, hst]
    | cons e rest => simp [undoRedact, hst]
  · cases hst : s.undoStack with
    | nil => simp [undoRedact, hst]
    | cons e rest => simp [undoRedact, hst]
  · intro q hq
    cases hst : s.undoStack with
    | nil => simp [undoRedact, hst]
    | cons e rest =>
      have hne : e.position ≠ q := hq e (by rw [hst]; rfl)
      simp [undoRedact, hst, List.getElem?_set_ne hne]

theorem redact_undo_frame_witness :
    (clickToken demoSession 0).currentSentenceId = demoSession.currentSentenceId ∧
    (clickToken demoSession 0).originalDisplay = demoSession.originalDisplay ∧
    (clickToken demoSession 0).tokens.length = demoSession.tokens.length ∧
    (clickToken demoSession 0).tokens[1]? = demoSession.tokens[1]? ∧
    (undoRedact demoSession).tokens[2]? = demoSession.tokens[2]? := by
  obtain ⟨a1, a2, a3, a4, _, _, _, a8⟩ := redact_undo_frame demoSession 0
  exact ⟨a1, a2, a3, a4 1 (by decide), a8 2 (by simp [demoSession, initSession])⟩

theorem click_click (s : Session) (p : Nat) :
    clickToken (clickToken s p) p = clickToken s p := by
  cases hpt : s.tokens[p]? with
  | none => simp [clickToken, hpt]
  | some t =>
    cases ho : t.onclick with
    | none => simp [clickToken, hpt, ho]
    | some w =>
      have hlt : p < s.tokens.length := (List.getElem?_eq_some_iff.mp hpt).1
      simp [clickToken, hpt, ho, redactWord, List.getElem?_set_self, hlt]

theorem stackInv_render (s : Session) (t : List Char) :
    StackInv (renderEditableSentence s t) := by
  constructor
  · exact List.Pairwise.nil
  · intro e he
    simp [renderEditableSentence] at he

theorem stackInv_click (s : Session) (p : Nat) (h : StackInv s) :
    StackInv (clickToken s p) := by
  obtain ⟨hpw, hred⟩ := h
  cases hpt : s.tokens[p]? with
  | none =>
    simpa [clickToken, hpt] using And.intro hpw hred
  | some t =>
    cases ho : t.onclick with
    | none => simpa [clickToken, hpt, ho] using And.intro hpw hred
    | some w =>
      have hlt : p < s.tokens.length := (List.getElem?_eq_some_iff.mp hpt).1
      have hck : clickToken s p = redactWord s p w := by simp [clickToken, hpt, ho]
      have hnotp : ∀ e ∈ s.undoStack, e.position ≠ p := by
        intro e he hep
        have h1 := hred e he
        rw [hep, hpt] at h1
        cases Option.some.inj h1
        simp [redactedTok] at ho
      rw [hck]
      constructor
      · exact List.Pairwise.cons (fun e he => (hnotp e he).symm) hpw
      · intro e he
        rcases List.mem_cons.mp he with he1 | he2
        · subst he1
          show (s.tokens.set p _)[p]? = some redactedTok
          rw [List.getElem?_set_self (by simpa using hlt)]
          rfl
        · show (s.tokens.set p _)[e.position]? = some redactedTok
          rw [List.getElem?_set_ne (Ne.symm (hnotp e he2))]
          exact hred e he2

theorem stackInv_undo (s : Session) (h : StackInv s) : StackInv (undoRedact s) := by
  obtain ⟨hpw, hred⟩ := h
  cases hst : s.undoStack with
  | nil =>
    have : undoRedact s = s := by simp [undoRedact, hst]
    rw [this]
    exact ⟨hpw, hred⟩
  | cons e rest =>
    rw [hst] at hpw hred
    have hck : undoRedact s = { s with
        undoStack := rest
        tokens := s.tokens.set e.position { text := e.original, onclick := some e.original } } := by
      simp [undoRedact, hst]
    rw [hck]
    obtain ⟨hhead, htail⟩ := List.pairwise_cons.mp hpw
    refine ⟨htail, ?_⟩
    intro e' he'
    show (s.tokens.set e.position _)[e'.position]? = some redactedTok
    rw [List.getElem?_set_ne (hhead e' he')]
    exact hred e' (List.mem_cons_of_mem e he')

theorem reachable_stackInv (s : Session) (h : Reachable s) : StackInv s := by
  induction h with
  | init =>
    refine ⟨List.Pairwise.nil, ?_⟩
    intro e he
    simp [initSession] at he
  | load s r _ _ => exact stackInv_render _ _
  | click s p _ ih => exact stackInv_click s p ih
  | undo s _ ih => exact stackInv_undo s ih
  | edit s _ ih => exact ih
  | save s t _ _ =>
    refine ⟨List.Pairwise.nil, ?_⟩
    intro e he
    simp [saveEdit, renderEditableSentence] at he
  | revert s _ _ =>
    refine ⟨List.Pairwise.nil, ?_⟩
    intro e he
    simp [useOriginal, renderEditableSentence] at he
  | submitResp s ok _ ih => cases ok <;> exact ih

/-- C1: in every reachable state a second `redact(p)` without an
intervening undo is ignored (the whole state is unchanged), the undo
history is a duplicate-free stack of currently-redacted positions
(most-recent first), and popping it always finds a token still marked
redacted. -/
theorem redaction_guard_invariant (s : Session) (p : Nat) (h : Reachable s) :
    clickToken (clickToken s p) p = clickToken s p ∧
    StackInv s ∧
    ∀ e rest, s.undoStack = e :: rest → s.tokens[e.position]? = some redactedTok := by
  refine ⟨click_click s p, reachable_stackInv s h, ?_⟩
  intro e rest hst
  exact (reachable_stackInv s h).2 e (by rw [hst]; exact List.mem_cons_self e rest)

theorem redaction_guard_invariant_witness :
    clickToken (clickToken (clickToken (loadNextSentenceOk initSession demoRecord) 1) 1) 1
      = clickToken (clickToken (loadNextSentenceOk initSession demoRecord) 1) 1 ∧
    StackInv (clickToken (loadNextSentenceOk initSession demoRecord) 1) := by
  obtain ⟨h1, h2, _⟩ := redaction_guard_invariant
    (clickToken (loadNextSentenceOk initSession demoRecord) 1) 1
    (Reachable.click _ 1 (Reachable.load _ demoRecord Reachable.init))
  exact ⟨h1, h2⟩

end Lacuna
